import Mathlib

/-!
Verification development for the Shell-E core pipeline
(planning, safety classification, execution, conversation memory).

The Go sources are shallowly embedded: pure string manipulation is
translated to Lean functions over `String` / `List Char`; the operating
system (file system stat, subprocess spawning, wall-clock time) is
passed in explicitly as oracle data.  Machine-word arithmetic does not
occur in the modelled code.  Strings are treated at the level of
Unicode code points; the Go code indexes bytes, which agrees with the
code-point view on the ASCII data the classifier, cd-detector and
JSON repair operate on.
-/

namespace ShellE

/-! ### Go string primitives (strings package subset used by the core) -/

/-- `unicode.IsSpace` restricted to the Latin-1 range actually relevant
to trimming (Go additionally recognises some exotic Unicode spaces). -/
def goIsSpace (c : Char) : Bool :=
  c = ' ' || c = '\t' || c = '\n' || (c = Char.ofNat 11) || (c = Char.ofNat 12) ||
  c = '\r' || (c = Char.ofNat 0x85) || (c = Char.ofNat 0xA0)

/-- `strings.TrimSpace`. -/
def goTrimSpace (s : String) : String :=
  ⟨((s.data.dropWhile goIsSpace).reverse.dropWhile goIsSpace).reverse⟩

/-- ASCII case folding of one character (`unicode.ToLower` on ASCII). -/
def goToLowerChar (c : Char) : Char :=
  if 'A' ≤ c ∧ c ≤ 'Z' then Char.ofNat (c.toNat + 32) else c

/-- `strings.ToLower` (ASCII-faithful; all rule patterns are ASCII). -/
def goToLower (s : String) : String :=
  ⟨s.data.map goToLowerChar⟩

/-- Substring containment on character lists (`pat` occurs contiguously). -/
def containsSubL (pat : List Char) : List Char → Bool
  | [] => pat.isPrefixOf ([] : List Char)
  | c :: rest => pat.isPrefixOf (c :: rest) || containsSubL pat rest

/-- `strings.Contains s sub`. -/
def goContains (s sub : String) : Bool :=
  containsSubL sub.data s.data

/-! ### SafetyClassifier (package safety) -/

/-- Safety `Level` of a command (`safety.Level`). -/
inductive Level where
  | Safe
  | NeedsConfirm
  | Blocked
deriving DecidableEq, Repr

/-- `safety.Assessment`: the result of checking a command. -/
structure Assessment where
  level : Level
  reason : String
  command : String
deriving DecidableEq, Repr

/-- One rule of the checker tables (`safety.pattern`).  The Go field
`match` is a Lean keyword, hence `matchStr`. -/
structure SafetyPattern where
  matchStr : String
  reason : String

/-- The blocked table built by `safety.NewChecker`. -/
def blockedPatterns : List SafetyPattern := [
  ⟨"format-volume", "Cannot format volumes — this destroys data permanently"⟩,
  ⟨"format c:", "Cannot format system drive"⟩,
  ⟨"format d:", "Cannot format drives"⟩,
  ⟨"remove-item -recurse c:\\windows", "Cannot delete Windows system directory"⟩,
  ⟨"remove-item -recurse c:/windows", "Cannot delete Windows system directory"⟩,
  ⟨"del /s /q c:\\windows", "Cannot delete Windows system directory"⟩,
  ⟨"rd /s /q c:\\windows", "Cannot delete Windows system directory"⟩,
  ⟨"rm -rf /", "Cannot delete root directory"⟩,
  ⟨"del /s /q c:\\", "Cannot recursively delete system drive"⟩,
  ⟨"rd /s /q c:\\", "Cannot recursively delete system drive"⟩,
  ⟨":(){:|:&};:", "Fork bomb detected"⟩,
  ⟨"reg delete hklm", "Cannot modify system registry"⟩,
  ⟨"remove-itemproperty hklm:", "Cannot modify system registry"⟩,
  ⟨"net user administrator", "Cannot modify administrator account"⟩,
  ⟨"set-executionpolicy unrestricted", "Cannot weaken security policy"⟩]

/-- The confirm table built by `safety.NewChecker`. -/
def confirmPatterns : List SafetyPattern := [
  ⟨"stop-process", "This will terminate a running process"⟩,
  ⟨"taskkill", "This will terminate a running process"⟩,
  ⟨"kill", "This will terminate processes"⟩,
  ⟨"shutdown", "This will shut down the computer"⟩,
  ⟨"restart-computer", "This will restart the computer"⟩,
  ⟨"stop-computer", "This will shut down the computer"⟩,
  ⟨"remove-item", "This will delete files or folders"⟩,
  ⟨"del ", "This will delete files"⟩,
  ⟨"rmdir", "This will remove a directory"⟩,
  ⟨"rd ", "This will remove a directory"⟩,
  ⟨"netsh", "This modifies network configuration"⟩,
  ⟨"set-dnsclientserveraddress", "This changes DNS settings"⟩,
  ⟨"stop-service", "This will stop a system service"⟩,
  ⟨"set-service", "This modifies a system service"⟩,
  ⟨"sc stop", "This will stop a system service"⟩,
  ⟨"sc delete", "This will delete a system service"⟩]

/-- `Checker.Check`: the Go loops return on the first matching pattern,
blocked table first, hence `List.find?`. -/
def Check (command : String) : Assessment :=
  let lower := goToLower (goTrimSpace command)
  match blockedPatterns.find? (fun p => goContains lower p.matchStr) with
  | some p => ⟨Level.Blocked, "🚫 BLOCKED: " ++ p.reason, command⟩
  | none =>
    match confirmPatterns.find? (fun p => goContains lower p.matchStr) with
    | some p => ⟨Level.NeedsConfirm, "⚠️  " ++ p.reason ++ " — confirm? (y/n)", command⟩
    | none => ⟨Level.Safe, "", command⟩

/-- Claim C1: for every command whose lower-cased trimmed form contains a
blocked-table substring, `Check` returns `Blocked` — regardless of case and
of any confirm-table match, since the blocked table is evaluated first. -/
theorem check_blocked_wins (command : String)
    (h : blockedPatterns.any
      (fun p => goContains (goToLower (goTrimSpace command)) p.matchStr) = true) :
    (Check command).level = Level.Blocked := by
  unfold Check
  rcases List.any_eq_true.mp h with ⟨p, hp, hmatch⟩
  have hsome : (blockedPatterns.find?
      (fun p => goContains (goToLower (goTrimSpace command)) p.matchStr)).isSome := by
    rw [List.find?_isSome]
    exact ⟨p, hp, hmatch⟩
  cases hf : blockedPatterns.find?
      (fun p => goContains (goToLower (goTrimSpace command)) p.matchStr) with
  | none => rw [hf] at hsome; simp at hsome
  | some q => simp [hf]

theorem check_blocked_wins_witness :
    (blockedPatterns.any
      (fun p => goContains (goToLower (goTrimSpace "del /s /q C:\\Windows\\Temp")) p.matchStr) = true) ∧
    (confirmPatterns.any
      (fun p => goContains (goToLower (goTrimSpace "del /s /q C:\\Windows\\Temp")) p.matchStr) = true) ∧
    (Check "del /s /q C:\\Windows\\Temp").level = Level.Blocked :=
  ⟨by decide, by decide, check_blocked_wins "del /s /q C:\\Windows\\Temp" (by decide)⟩

/-- Claim C8: with no blocked-table and no confirm-table substring in the
lower-cased trimmed command, `Check` returns `Safe` with empty reason
(in particular for the empty command, see the witness). -/
theorem check_no_match_safe (command : String)
    (hb : blockedPatterns.all
      (fun p => !(goContains (goToLower (goTrimSpace command)) p.matchStr)) = true)
    (hc : confirmPatterns.all
      (fun p => !(goContains (goToLower (goTrimSpace command)) p.matchStr)) = true) :
    Check command = ⟨Level.Safe, "", command⟩ := by
  unfold Check
  have hb' : blockedPatterns.find?
      (fun p => goContains (goToLower (goTrimSpace command)) p.matchStr) = none := by
    rw [List.find?_eq_none]
    intro p hp
    have := List.all_eq_true.mp hb p hp
    simp at this
    simp [this]
  have hc' : confirmPatterns.find?
      (fun p => goContains (goToLower (goTrimSpace command)) p.matchStr) = none := by
    rw [List.find?_eq_none]
    intro p hp
    have := List.all_eq_true.mp hc p hp
    simp at this
    simp [this]
  simp [hb', hc']

theorem check_no_match_safe_witness :
    Check "" = ⟨Level.Safe, "", ""⟩ :=
  check_no_match_safe "" (by decide) (by decide)

/-! ### ResponseParser (package planner): JSON model

`encoding/json.Unmarshal` as used on `CommandPlan` is modelled by a
full recursive-descent JSON reader (`parseValue`, fuel-indexed; the
fuel `length + 1` is never exhausted because every recursive call
consumes at least one character first) followed by field assignment
with Go semantics: unknown fields ignored, case-insensitive key fold,
`null` a no-op on non-pointer fields and `nil` for `*string`, any type
mismatch an error, trailing non-whitespace an error. -/

/-- JSON syntax values; numbers keep their raw text (no numeric field
exists in `CommandPlan`, a number assigned to it is a type error). -/
inductive JValue where
  | null
  | bool (b : Bool)
  | num (raw : String)
  | str (s : String)
  | arr (elems : List JValue)
  | obj (fields : List (String × JValue))

/-- JSON insignificant whitespace. -/
def skipWs (cs : List Char) : List Char :=
  cs.dropWhile (fun c => c = ' ' || c = '\t' || c = '\n' || c = '\r')

/-- Hexadecimal digit value. -/
def hexVal (c : Char) : Option Nat :=
  if '0' ≤ c ∧ c ≤ '9' then some (c.toNat - '0'.toNat)
  else if 'a' ≤ c ∧ c ≤ 'f' then some (c.toNat - 'a'.toNat + 10)
  else if 'A' ≤ c ∧ c ≤ 'F' then some (c.toNat - 'A'.toNat + 10)
  else none

/-- Decode `\uXXXX` digits. -/
def hex4 (a b c d : Char) : Option Nat := do
  let va ← hexVal a
  let vb ← hexVal b
  let vc ← hexVal c
  let vd ← hexVal d
  pure (va * 4096 + vb * 256 + vc * 16 + vd)

/-- Four-hex-digit escape payload after `\u`: decodes one character with
Go's surrogate handling (combine a valid pair, otherwise U+FFFD for a
lone surrogate) and returns the length-bounded remainder. -/
def parseU : List Char → Option (Char × Nat)
  | h1 :: h2 :: h3 :: h4 :: rest6 =>
    match hex4 h1 h2 h3 h4 with
    | none => none
    | some n =>
      if 0xD800 ≤ n ∧ n ≤ 0xDFFF then
        match rest6 with
        | '\\' :: 'u' :: k1 :: k2 :: k3 :: k4 :: _ =>
          match hex4 k1 k2 k3 k4 with
          | some m =>
            if 0xD800 ≤ n ∧ n ≤ 0xDBFF ∧ 0xDC00 ≤ m ∧ m ≤ 0xDFFF then
              some (Char.ofNat (0x10000 + (n - 0xD800) * 0x400 + (m - 0xDC00)), 10)
            else some (Char.ofNat 0xFFFD, 4)
          | none => some (Char.ofNat 0xFFFD, 4)
        | _ => some (Char.ofNat 0xFFFD, 4)
      else some (Char.ofNat n, 4)
  | _ => none

/-- String body after the opening quote: returns the decoded content and
the remainder after the closing quote.  Mirrors Go's unquoting: the
eight standard escapes, `\uXXXX` with surrogate-pair combination and
U+FFFD for lone surrogates, error on raw control characters.  The fuel
is structural for kernel reduction; every step consumes at least one
character, so `length + 1` fuel can never run out. -/
def parseStringBody : Nat → List Char → Option (List Char × List Char)
  | 0, _ => none
  | _, [] => none
  | Nat.succ fuel, c :: rest =>
    if c = '"' then some ([], rest)
    else if c.toNat < 0x20 then none
    else if c = '\\' then
      match rest with
      | [] => none
      | e :: rest2 =>
        if e = '"' ∨ e = '\\' ∨ e = '/' then
          (parseStringBody fuel rest2).map (fun (s, r) => (e :: s, r))
        else if e = 'b' then
          (parseStringBody fuel rest2).map (fun (s, r) => (Char.ofNat 8 :: s, r))
        else if e = 'f' then
          (parseStringBody fuel rest2).map (fun (s, r) => (Char.ofNat 12 :: s, r))
        else if e = 'n' then
          (parseStringBody fuel rest2).map (fun (s, r) => ('\n' :: s, r))
        else if e = 'r' then
          (parseStringBody fuel rest2).map (fun (s, r) => ('\r' :: s, r))
        else if e = 't' then
          (parseStringBody fuel rest2).map (fun (s, r) => ('\t' :: s, r))
        else if e = 'u' then
          match parseU rest2 with
          | none => none
          | some (ch, k) =>
            (parseStringBody fuel (rest2.drop k)).map (fun (s, t) => (ch :: s, t))
        else none
    else (parseStringBody fuel rest).map (fun (s, r) => (c :: s, r))

/-- Number per the JSON grammar; returns the raw consumed characters. -/
def parseNumber (cs : List Char) : Option (List Char × List Char) :=
  let (neg, cs1) := match cs with
    | '-' :: r => (['-'], r)
    | _ => (([] : List Char), cs)
  match cs1 with
  | [] => none
  | d :: r =>
    if d = '0' then some (neg ++ ['0'], r)
    else if '1' ≤ d ∧ d ≤ '9' then
      let digits := r.takeWhile (fun c => '0' ≤ c ∧ c ≤ '9')
      some (neg ++ d :: digits, r.drop digits.length)
    else none

/-- Fraction and exponent suffix after the integer part. -/
def parseNumberSuffix (cs : List Char) : Option (List Char × List Char) :=
  let (frac, cs1) := match cs with
    | '.' :: r =>
      let digits := r.takeWhile (fun c => '0' ≤ c ∧ c ≤ '9')
      if digits = [] then (none, cs) else (some ('.' :: digits), r.drop digits.length)
    | _ => (none, cs)
  match frac, cs1 with
  | none, '.' :: _ => none
  | _, _ =>
    let fracChars := frac.getD []
    match cs1 with
    | e :: r =>
      if e = 'e' ∨ e = 'E' then
        let (sgn, r1) := match r with
          | '+' :: r' => (['+'], r')
          | '-' :: r' => (['-'], r')
          | _ => (([] : List Char), r)
        let digits := r1.takeWhile (fun c => '0' ≤ c ∧ c ≤ '9')
        if digits = [] then none
        else some (fracChars ++ e :: sgn ++ digits, r1.drop digits.length)
      else some (fracChars, cs1)
    | [] => some (fracChars, cs1)

/-- Parsing mode: a full value, the members of an object after its
opening brace, or the elements of an array after its opening bracket.
Folding the three mutually recursive Go-style parsers into one
fuel-structural function keeps kernel reduction available. -/
inductive PMode where
  | value
  | members (acc : List (String × JValue))
  | elems (acc : List JValue)

/-- Recursive-descent JSON reader.  Fuel strictly decreases on every
recursive call, and every recursive call first consumes at least one
character, so `length + 1` fuel can never run out. -/
def parseJ : Nat → PMode → List Char → Option (JValue × List Char)
  | 0, _, _ => none
  | Nat.succ fuel, .value, cs =>
    match skipWs cs with
    | [] => none
    | c :: rest =>
      if c = '{' then
        match skipWs rest with
        | '}' :: rest2 => some (.obj [], rest2)
        | _ => parseJ fuel (.members []) rest
      else if c = '[' then
        match skipWs rest with
        | ']' :: rest2 => some (.arr [], rest2)
        | _ => parseJ fuel (.elems []) rest
      else if c = '"' then
        (parseStringBody (rest.length + 1) rest).map (fun (s, r) => (.str ⟨s⟩, r))
      else if c = 't' then
        match rest with
        | 'r' :: 'u' :: 'e' :: r => some (.bool true, r)
        | _ => none
      else if c = 'f' then
        match rest with
        | 'a' :: 'l' :: 's' :: 'e' :: r => some (.bool false, r)
        | _ => none
      else if c = 'n' then
        match rest with
        | 'u' :: 'l' :: 'l' :: r => some (.null, r)
        | _ => none
      else if c = '-' ∨ ('0' ≤ c ∧ c ≤ '9') then
        match parseNumber (c :: rest) with
        | none => none
        | some (intPart, r) =>
          match parseNumberSuffix r with
          | none => none
          | some (sfx, r2) => some (.num ⟨intPart ++ sfx⟩, r2)
      else none
  | Nat.succ fuel, .members acc, cs =>
    match skipWs cs with
    | '"' :: rest =>
      match parseStringBody (rest.length + 1) rest with
      | none => none
      | some (key, rest2) =>
        match skipWs rest2 with
        | ':' :: rest3 =>
          match parseJ fuel .value rest3 with
          | none => none
          | some (v, rest4) =>
            match skipWs rest4 with
            | ',' :: rest5 => parseJ fuel (.members (acc ++ [(⟨key⟩, v)])) rest5
            | '}' :: rest5 => some (.obj (acc ++ [(⟨key⟩, v)]), rest5)
            | _ => none
        | _ => none
    | _ => none
  | Nat.succ fuel, .elems acc, cs =>
    match parseJ fuel .value cs with
    | none => none
    | some (v, rest) =>
      match skipWs rest with
      | ',' :: rest2 => parseJ fuel (.elems (acc ++ [v])) rest2
      | ']' :: rest2 => some (.arr (acc ++ [v]), rest2)
      | _ => none

/-- One JSON value from the front of the input. -/
def parseValue (fuel : Nat) (cs : List Char) : Option (JValue × List Char) :=
  parseJ fuel .value cs

/-- `planner.CommandPlan`: the structured output of the model. -/
structure CommandPlan where
  command : Option String
  shell : String
  response : String
  reasoning : String
  safe : Bool
deriving DecidableEq, Repr

/-- The Go zero value the decoder starts from. -/
def zeroPlan : CommandPlan := ⟨none, "", "", "", false⟩

/-- Assign one decoded object member to the struct, Go-style:
case-insensitive key fold, unknown keys ignored, `null` a no-op on
non-pointer fields and `nil` for the `*string` command, any type
mismatch an error. -/
def setPlanField (p : CommandPlan) (key : String) (v : JValue) : Option CommandPlan :=
  let k := goToLower key
  if k = "command" then
    match v with
    | .null => some { p with command := none }
    | .str s => some { p with command := some s }
    | _ => none
  else if k = "shell" then
    match v with
    | .null => some p
    | .str s => some { p with shell := s }
    | _ => none
  else if k = "response" then
    match v with
    | .null => some p
    | .str s => some { p with response := s }
    | _ => none
  else if k = "reasoning" then
    match v with
    | .null => some p
    | .str s => some { p with reasoning := s }
    | _ => none
  else if k = "safe" then
    match v with
    | .null => some p
    | .bool b => some { p with safe := b }
    | _ => none
  else some p

/-- Fold the object members in order (later duplicates win; Go reports
the first type error, which this model collapses to `none`). -/
def applyPlanFields : CommandPlan → List (String × JValue) → Option CommandPlan
  | p, [] => some p
  | p, (k, v) :: rest =>
    match setPlanField p k v with
    | none => none
    | some p' => applyPlanFields p' rest

/-- `json.Unmarshal(data, &plan)`: syntax-check and decode the whole
input (trailing non-whitespace is an error); top-level `null` leaves
the zero value, a top-level non-object is a type error. -/
def unmarshalPlan (s : String) : Option CommandPlan :=
  let cs := s.data
  match parseValue (cs.length + 1) cs with
  | none => none
  | some (v, rest) =>
    if skipWs rest ≠ [] then none
    else
      match v with
      | .null => some zeroPlan
      | .obj fields => applyPlanFields zeroPlan fields
      | _ => none

/-- Brace-depth scan from the first `{` (`planner.ExtractJSON` loop). -/
def depthScan : List Char → Nat → List Char → Option (List Char)
  | [], _, _ => none
  | c :: rest, depth, acc =>
    if c = '{' then depthScan rest (depth + 1) (acc ++ [c])
    else if c = '}' then
      if depth = 1 then some (acc ++ [c])
      else depthScan rest (depth - 1) (acc ++ [c])
    else depthScan rest depth (acc ++ [c])

/-- Drop everything before the first `{` (`strings.Index(s, "{")`). -/
def dropBeforeBrace : List Char → Option (List Char)
  | [] => none
  | c :: rest => if c = '{' then some (c :: rest) else dropBeforeBrace rest

/-- `planner.ExtractJSON`: the first balanced `{...}` span, or `""`. -/
def ExtractJSON (s : String) : String :=
  match dropBeforeBrace s.data with
  | none => ""
  | some cs =>
    match depthScan cs 0 [] with
    | none => ""
    | some span => ⟨span⟩

/-- The valid-escape set of `planner.sanitizeJSON` (note: `b` and `f`
are deliberately treated as invalid there). -/
def validEscape (c : Char) : Bool :=
  c = '"' || c = '\\' || c = '/' || c = 'n' || c = 'r' || c = 't' || c = 'u'

/-- The `planner.sanitizeJSON` scan.  `prev` is the previous character
of the original input (`s[i-1]`), `inString` the quote toggle.  A
backslash seen in-string whose next character is outside the escape set
is written as two backslashes; the next character itself is not
consumed. -/
def sanitizeJSONAux : List Char → Option Char → Bool → List Char
  | [], _, _ => []
  | c :: rest, prev, inString =>
    if c = '"' ∧ prev ≠ some '\\' then
      c :: sanitizeJSONAux rest (some c) (!inString)
    else if inString ∧ c = '\\' ∧ rest ≠ [] ∧ ¬ validEscape (rest.headD ' ') then
      '\\' :: '\\' :: sanitizeJSONAux rest (some c) inString
    else
      c :: sanitizeJSONAux rest (some c) inString

/-- `planner.sanitizeJSON`. -/
def sanitizeJSON (s : String) : String :=
  ⟨sanitizeJSONAux s.data none false⟩

/-- Command normalization at the end of `Planner.ParseResponse`: the
literal string `"null"` or a blank command becomes JSON null. -/
def normalizePlan (plan : CommandPlan) : CommandPlan :=
  match plan.command with
  | some c =>
    if goTrimSpace c = "null" ∨ goTrimSpace c = "" then { plan with command := none }
    else plan
  | none => plan

/-- `Planner.ParseResponse`: trim, extract the first balanced span (or
keep the whole text), strict decode, on failure repair and decode
again, then normalize; `none` models the returned parse error. -/
def ParseResponse (raw : String) : Option CommandPlan :=
  let raw := goTrimSpace raw
  let jsonStr := ExtractJSON raw
  let jsonStr := if jsonStr = "" then raw else jsonStr
  match unmarshalPlan jsonStr with
  | some plan => some (normalizePlan plan)
  | none =>
    match unmarshalPlan (sanitizeJSON jsonStr) with
    | some plan => some (normalizePlan plan)
    | none => none

/-- `strings.ReplaceAll` (non-overlapping, left to right; the only
call with an empty pattern also has an empty replacement, for which
Go's insert-between-characters behaviour is the identity, as here).
Fuel-structural; every step consumes at least one character. -/
def replaceAllL (pat rep : List Char) : Nat → List Char → List Char
  | 0, s => s
  | _, [] => []
  | Nat.succ fuel, c :: rest =>
    if pat ≠ [] ∧ pat.isPrefixOf (c :: rest) then
      rep ++ replaceAllL pat rep fuel ((c :: rest).drop pat.length)
    else
      c :: replaceAllL pat rep fuel rest

/-- `strings.ReplaceAll` on strings. -/
def goReplaceAll (s pat rep : String) : String :=
  ⟨replaceAllL pat.data rep.data (s.data.length + 1) s.data⟩

/-- `strings.Index` (first occurrence of `pat`), in characters. -/
def indexOfSubL (pat : List Char) : List Char → Option Nat
  | [] => if pat.isPrefixOf ([] : List Char) then some 0 else none
  | c :: rest =>
    if pat.isPrefixOf (c :: rest) then some 0
    else (indexOfSubL pat rest).map (· + 1)

/-- `strings.Index` on strings. -/
def goIndex (s pat : String) : Option Nat :=
  indexOfSubL pat.data s.data

/-- One step of the case-insensitive stripping loop of
`planner.sanitizeCommand`: remove the first case-folded occurrence of
`p` and re-lowercase. -/
def stripCaseInsensitive (acc : String × String) (p : String) : String × String :=
  let (result, lower) := acc
  let lowerPrefix := goToLower p
  match goIndex lower lowerPrefix with
  | some idx =>
    let r : String := ⟨result.data.take idx ++ result.data.drop (idx + p.length)⟩
    (r, goToLower r)
  | none => acc

/-- `planner.sanitizeCommand`: strip embedded copies of the working
directory (raw, slash-variant, corrupted separator-free variant), then
one case-insensitive pass. -/
def sanitizeCommand (command workingDir : String) : String :=
  if workingDir = "" then command
  else
    let variants : List String := [
      workingDir ++ "\\",
      workingDir ++ "/",
      goReplaceAll workingDir "\\" "/" ++ "/",
      goReplaceAll workingDir "/" "\\" ++ "\\"]
    let corrupted := goReplaceAll (goReplaceAll workingDir "\\" "") "/" ""
    let variants := variants ++ [corrupted]
    let result := variants.foldl (fun r p => goReplaceAll r p "") command
    (variants.foldl stripCaseInsensitive (result, goToLower result)).1

/-- `Planner.Plan` after a successful inference call: `raw` is the
completion text returned by the collaborator, `workingDir` the
memory's working directory, `defaultShell` the configured shell.  The
Go method returns an error only when inference fails, which is outside
this function; the parse-failure branch is the chat fallback. -/
def Plan (raw workingDir defaultShell : String) : CommandPlan :=
  match ParseResponse raw with
  | none =>
    { command := none, shell := "", response := raw,
      reasoning := "Could not parse structured output, returning as chat", safe := false }
  | some plan =>
    let plan := if plan.shell = "" then { plan with shell := defaultShell } else plan
    match plan.command with
    | some c => { plan with command := some (sanitizeCommand c workingDir) }
    | none => plan

/-- Claim C3: when the model text fails JSON decoding even after
extraction and the repair pass, `Planner.Plan` recovers locally with a
chat-only plan: null command and the raw text as the response. -/
theorem plan_parse_failure_fallback (raw workingDir defaultShell : String)
    (h : ParseResponse raw = none) :
    (Plan raw workingDir defaultShell).command = none ∧
    (Plan raw workingDir defaultShell).response = raw := by
  unfold Plan
  rw [h]
  exact ⟨rfl, rfl⟩

theorem plan_parse_failure_fallback_witness :
    ParseResponse "I'm sorry, I can't do that." = none ∧
    (Plan "I'm sorry, I can't do that." "C:\\Users" "powershell").command = none ∧
    (Plan "I'm sorry, I can't do that." "C:\\Users" "powershell").response
      = "I'm sorry, I can't do that." :=
  ⟨by decide,
   plan_parse_failure_fallback "I'm sorry, I can't do that." "C:\\Users" "powershell" (by decide)⟩

/-- Counterexample to claim C2 as stated: (i) on the parse-failure
fallback the plan's shell is the empty string, not one of the two
enumerated values (the shell default is applied only after a
successful parse); (ii) when the model's command is exactly an
embedded slash-variant of the working directory, `sanitizeCommand`
strips it to the empty string, so the plan's command is a non-null
empty string. -/
theorem plan_invariant_counterexample :
    ((Plan "hello there" "C:\\Users" "powershell").shell ≠ "powershell" ∧
     (Plan "hello there" "C:\\Users" "powershell").shell ≠ "cmd") ∧
    (Plan "\x7b\"command\":\"C:/Users/\",\"shell\":\"powershell\",\"response\":\"ok\",\"reasoning\":\"\",\"safe\":true\x7d"
        "C:\\Users" "powershell").command = some "" := by
  decide

/-- Claim C2 (amended): when the model output parses to a plan whose
shell field is empty or one of the two enumerated values, and the
configured default shell is one of the two enumerated values, the
returned plan's command is null exactly when the parsed command is
null and otherwise is the sanitization of the parsed command string
(which may be the empty string), and the returned shell is
`powershell` or `cmd`. -/
theorem plan_invariant_amended (raw wd dsh : String) (p : CommandPlan)
    (hd : dsh = "powershell" ∨ dsh = "cmd")
    (hpr : ParseResponse raw = some p)
    (hsh : p.shell = "" ∨ p.shell = "powershell" ∨ p.shell = "cmd") :
    (Plan raw wd dsh).command = p.command.map (fun c => sanitizeCommand c wd) ∧
    ((Plan raw wd dsh).shell = "powershell" ∨ (Plan raw wd dsh).shell = "cmd") := by
  obtain ⟨pc, psh, pres, prea, psf⟩ := p
  have hred : Plan raw wd dsh =
      (let plan := if psh = "" then CommandPlan.mk pc dsh pres prea psf
                   else CommandPlan.mk pc psh pres prea psf
       match plan.command with
       | some c => { plan with command := some (sanitizeCommand c wd) }
       | none => plan) := by
    unfold Plan
    rw [hpr]
  rw [hred]
  by_cases hsh0 : psh = ""
  · rw [if_pos hsh0]
    cases pc with
    | none => exact ⟨rfl, hd⟩
    | some c => exact ⟨rfl, hd⟩
  · rw [if_neg hsh0]
    have hsh' : psh = "powershell" ∨ psh = "cmd" := by
      rcases hsh with h | h | h
      · exact absurd h hsh0
      · exact Or.inl h
      · exact Or.inr h
    cases pc with
    | none => exact ⟨rfl, hsh'⟩
    | some c => exact ⟨rfl, hsh'⟩

theorem plan_invariant_amended_witness :
    (Plan "\x7b\"command\":\"dir\",\"response\":\"ok\"\x7d" "C:\\Users" "powershell").command
      = (some "dir").map (fun c => sanitizeCommand c "C:\\Users") ∧
    ((Plan "\x7b\"command\":\"dir\",\"response\":\"ok\"\x7d" "C:\\Users" "powershell").shell = "powershell" ∨
     (Plan "\x7b\"command\":\"dir\",\"response\":\"ok\"\x7d" "C:\\Users" "powershell").shell = "cmd") :=
  plan_invariant_amended "\x7b\"command\":\"dir\",\"response\":\"ok\"\x7d" "C:\\Users" "powershell"
    (CommandPlan.mk (some "dir") "" "ok" "" false)
    (Or.inl rfl) (by decide) (Or.inl rfl)

/-! ### The repair pass (claim C7) -/

/-- Whether the `sanitizeJSON` scan never hits a rewrite: mirrors the
scan and reports `false` exactly when a backslash seen in-string is
immediately followed by a character outside the valid escape set. -/
def noInvalidEscapeAux : List Char → Option Char → Bool → Bool
  | [], _, _ => true
  | c :: rest, prev, inString =>
    if c = '"' ∧ prev ≠ some '\\' then noInvalidEscapeAux rest (some c) (!inString)
    else if inString ∧ c = '\\' ∧ rest ≠ [] ∧ ¬ validEscape (rest.headD ' ') then false
    else noInvalidEscapeAux rest (some c) inString

/-- `noInvalidEscapeAux` at the start of a candidate. -/
def noInvalidEscape (s : String) : Bool := noInvalidEscapeAux s.data none false

/-- The scan never shortens its input. -/
theorem sanitizeJSONAux_length_ge (cs : List Char) (prev : Option Char) (b : Bool) :
    cs.length ≤ (sanitizeJSONAux cs prev b).length := by
  induction cs generalizing prev b with
  | nil => simp [sanitizeJSONAux]
  | cons c rest ih =>
    unfold sanitizeJSONAux
    by_cases h1 : c = '"' ∧ prev ≠ some '\\'
    · rw [if_pos h1]
      have := ih (some c) (!b)
      simp
      omega
    · rw [if_neg h1]
      by_cases h2 : b ∧ c = '\\' ∧ rest ≠ [] ∧ ¬ validEscape (rest.headD ' ')
      · rw [if_pos h2]
        obtain ⟨-, hc, -, -⟩ := h2
        subst hc
        have := ih (some '\\') b
        simp
        omega
      · rw [if_neg h2]
        have := ih (some c) b
        simp
        omega

/-- The scan is the identity exactly when it hits no rewrite. -/
theorem sanitizeJSONAux_eq_iff (cs : List Char) (prev : Option Char) (b : Bool) :
    sanitizeJSONAux cs prev b = cs ↔ noInvalidEscapeAux cs prev b = true := by
  induction cs generalizing prev b with
  | nil => simp [sanitizeJSONAux, noInvalidEscapeAux]
  | cons c rest ih =>
    unfold sanitizeJSONAux noInvalidEscapeAux
    by_cases h1 : c = '"' ∧ prev ≠ some '\\'
    · rw [if_pos h1, if_pos h1]
      simpa using ih (some c) (!b)
    · rw [if_neg h1, if_neg h1]
      by_cases h2 : b ∧ c = '\\' ∧ rest ≠ [] ∧ ¬ validEscape (rest.headD ' ')
      · rw [if_pos h2, if_pos h2]
        obtain ⟨-, hc, -, -⟩ := h2
        subst hc
        constructor
        · intro heq
          exfalso
          have hlen := congrArg List.length heq
          have := sanitizeJSONAux_length_ge rest (some '\\') b
          simp at hlen
          omega
        · intro hfalse
          exact absurd hfalse (by simp)
      · rw [if_neg h2, if_neg h2]
        simpa using ih (some c) b

/-- Counterexample to claim C7 as stated: the candidate `"a\\F"` is a
fully valid JSON string (its one escape sequence `\\` is valid, as the
conjunct decoding it shows), yet the repair pass rewrites its second
backslash — which is the escaped character of the valid `\\` escape but
is itself followed by `F` — so a valid escape sequence is not left
unchanged. -/
theorem sanitizeJSON_counterexample :
    sanitizeJSON "\"a\\\\F\"" = "\"a\\\\\\F\"" ∧
    sanitizeJSON "\"a\\\\F\"" ≠ "\"a\\\\F\"" ∧
    parseValue 7 "\"a\\\\F\"".data = some (.str "a\\F", []) := by
  refine ⟨by decide, by decide, ?_⟩
  rfl

/-- Claim C7 (amended): the repair pass returns its candidate
unchanged precisely when the scan (with its quote toggle that treats
any quote preceded by a backslash as escaped) meets no in-string
backslash immediately followed by a character outside the valid escape
set; every such backslash — including one that is the second character
of a valid `\\` escape — is doubled, so the output differs. -/
theorem sanitizeJSON_fixpoint_iff (s : String) :
    sanitizeJSON s = s ↔ noInvalidEscape s = true := by
  unfold sanitizeJSON noInvalidEscape
  constructor
  · intro h
    have hdata := congrArg String.data h
    exact (sanitizeJSONAux_eq_iff s.data none false).mp hdata
  · intro h
    exact String.ext ((sanitizeJSONAux_eq_iff s.data none false).mpr h)

/-! ### CommandExecutor (package executor)

The host operating system is an oracle: `FS.stat` answers `os.Stat`
calls, `Env.getwd` is the (successful) `os.Getwd` fallback, and
`Env.spawn` is the host-shell collaborator of the spec, returning the
subprocess's streams, timeout flag and error.  `path/filepath` for
Windows (`Clean`, `IsAbs`, `Join`, separator handling) is ported
below. -/

/-- `os.IsPathSeparator` on Windows. -/
def isSlash (c : Char) : Bool := c = '\\' || c = '/'

/-- `filepath.FromSlash` on Windows. -/
def fromSlash (s : String) : String :=
  ⟨s.data.map (fun c => if c = '/' then '\\' else c)⟩

/-- Tail of the UNC share-name scan: advance to the next separator (or
the end) and return that index.  Fuel-structural; one index per step. -/
def shareEnd (s : List Char) : Nat → Nat → Nat
  | 0, n => n
  | Nat.succ fuel, n =>
    if n < s.length then
      if isSlash (s.getD n ' ') then n else shareEnd s fuel (n + 1)
    else n

/-- The UNC scan of `volumeNameLen`: find the separator ending the
server name, reject an empty or dot share, else return the index
ending the share name. -/
def uncScan (s : List Char) : Nat → Nat → Nat
  | 0, _ => 0
  | Nat.succ fuel, n =>
    if n < s.length - 1 then
      if isSlash (s.getD n ' ') then
        if ¬ isSlash (s.getD (n + 1) ' ') then
          if s.getD (n + 1) ' ' = '.' then 0
          else shareEnd s (s.length + 1) (n + 1)
        else 0
      else uncScan s fuel (n + 1)
    else 0

/-- `filepath.volumeNameLen` on Windows: a drive-letter pair, or the
length of a `\\server\share` prefix. -/
def volumeNameLen (s : List Char) : Nat :=
  if s.length < 2 then 0
  else
    let c := s.getD 0 ' '
    if s.getD 1 ' ' = ':' ∧ (('a' ≤ c ∧ c ≤ 'z') ∨ ('A' ≤ c ∧ c ≤ 'Z')) then 2
    else if 5 ≤ s.length ∧ isSlash (s.getD 0 ' ') ∧ isSlash (s.getD 1 ' ') ∧
        ¬ isSlash (s.getD 2 ' ') ∧ s.getD 2 ' ' ≠ '.' then
      uncScan s (s.length + 1) 3
    else 0

/-- `filepath.IsAbs` on Windows. -/
def goIsAbs (str : String) : Bool :=
  let s := str.data
  let l := volumeNameLen s
  if l = 0 then false
  else if isSlash (s.getD 0 ' ') ∧ isSlash (s.getD 1 ' ') then true
  else
    match s.drop l with
    | [] => false
    | c :: _ => isSlash c

/-- The `..` backtrack of `filepath.Clean`: pop buffer positions until
the write position sits on a separator or reaches `dotdot`. -/
def cleanBacktrack (out : List Char) (dotdot : Nat) : Nat → Nat
  | 0 => 0
  | Nat.succ w =>
    if dotdot < Nat.succ w ∧ ¬ isSlash (out.getD (Nat.succ w) ' ') then
      cleanBacktrack out dotdot w
    else Nat.succ w

/-- Copy one path component (the inner loop of `Clean`'s default
case): append characters until a separator or the end. -/
def takeComp (out : List Char) : List Char → (List Char × List Char)
  | [] => (out, [])
  | c :: rest => if isSlash c then (out, c :: rest) else takeComp (out ++ [c]) rest

/-- The element-wise loop of `filepath.Clean` over the path after the
volume prefix.  `out` is the written buffer (always `\`-separated, as
Go appends `Separator`), `dotdot` the backtrack fence.  Fuel-structural;
every iteration consumes at least one character. -/
def cleanCore : Nat → List Char → Bool → List Char → Nat → List Char
  | 0, _, _, out, _ => out
  | Nat.succ fuel, rem, rooted, out, dotdot =>
    match rem with
    | [] => out
    | c :: rest =>
      if isSlash c then cleanCore fuel rest rooted out dotdot
      else if c = '.' ∧ (rest = [] ∨ isSlash (rest.headD ' ')) then
        cleanCore fuel rest rooted out dotdot
      else if c = '.' ∧ rest.headD ' ' = '.' ∧
          (rest.drop 1 = [] ∨ isSlash ((rest.drop 1).headD ' ')) then
        let rem2 := rest.drop 1
        if dotdot < out.length then
          let w := cleanBacktrack out dotdot (out.length - 1)
          cleanCore fuel rem2 rooted (out.take w) dotdot
        else if ¬ rooted then
          let out2 := (if 0 < out.length then out ++ ['\\'] else out) ++ ['.', '.']
          cleanCore fuel rem2 rooted out2 out2.length
        else cleanCore fuel rem2 rooted out dotdot
      else
        let out2 := if (rooted ∧ out.length ≠ 1) ∨ (¬ rooted ∧ out.length ≠ 0) then
            out ++ ['\\'] else out
        let p := takeComp (out2 ++ [c]) rest
        cleanCore fuel p.2 rooted p.1 dotdot

/-- `filepath.Clean` on Windows. -/
def goClean (path : String) : String :=
  let original := path.data
  let volLen := volumeNameLen original
  let p := original.drop volLen
  if p = [] then
    if 1 < volLen ∧ isSlash (original.getD 0 ' ') ∧ isSlash (original.getD 1 ' ') then
      fromSlash ⟨original⟩
    else ⟨original ++ ['.']⟩
  else
    let rooted := isSlash (p.headD ' ')
    let out :=
      if rooted then cleanCore (p.length + 1) (p.drop 1) true ['\\'] 1
      else cleanCore (p.length + 1) p false [] 0
    let out := if out = [] then ['.'] else out
    fromSlash ⟨original.take volLen ++ out⟩

/-- `filepath.isUNC`. -/
def isUNC (s : String) : Bool := 2 < volumeNameLen s.data

/-- `filepath.Join` on Windows for the two operands `handleCD` passes
(`joinNonEmpty` with empty elements skipped; the drive-relative
`"C:"+path` case and the UNC guard of golang issue 9167 included). -/
def goJoin2 (a b : String) : String :=
  if a = "" then
    if b = "" then "" else goClean b
  else if a.data.length = 2 ∧ a.data.getD 1 ' ' = ':' then
    goClean (a ++ b)
  else
    let joined := if b = "" then a ++ "\\" else a ++ "\\" ++ b
    let p := goClean joined
    if ¬ isUNC p then p
    else
      let head := goClean a
      if isUNC head then p
      else
        let tail := goClean b
        if head.data.getLastD ' ' = '\\' then head ++ tail else head ++ "\\" ++ tail

/-- Result of `os.Stat` as the executor consumes it: exists with a
directory flag, or an error that either satisfies `os.IsNotExist` or
not; the error message feeds `%v` formatting. -/
inductive StatResult where
  | ok (isDir : Bool)
  | notExist (msg : String)
  | otherError (msg : String)
deriving DecidableEq, Repr

/-- The file-system oracle. -/
structure FS where
  stat : String → StatResult

/-- `executor.Result` (the wall-clock `Duration` field is not
modelled: time is external and no claim mentions it). -/
structure Result where
  success : Bool
  output : String
  error : String
  newWorkDir : String
  currentWorkDir : String
deriving DecidableEq, Repr

/-- The error `exec.Cmd.Run` returns: an `*exec.ExitError` with an
exit code, or any other error with its message. -/
inductive ExecErr where
  | exitError (code : Int)
  | otherError (msg : String)
deriving DecidableEq, Repr

/-- `err.Error()`. -/
def ExecErr.text : ExecErr → String
  | .exitError code => "exit status " ++ toString code
  | .otherError msg => msg

/-- The `*exec.ExitError` type assertion plus `ExitCode() == 1`. -/
def ExecErr.isExit1 : ExecErr → Bool
  | .exitError 1 => true
  | _ => false

/-- What the spawned subprocess produced: captured streams, whether
the context deadline elapsed, and the error from `Run`. -/
structure SpawnOutcome where
  stdout : String
  stderr : String
  timedOut : Bool
  err : Option ExecErr

/-- The external world of one `Execute` call: file system, process
default directory (`os.Getwd`, successful case), and the host-shell
collaborator keyed by interpreter, command text and working dir. -/
structure Env where
  fs : FS
  getwd : String
  spawn : String → String → String → SpawnOutcome

/-- `executor.cleanPathArg`: trim, then strip one matching pair of
surrounding quotes. -/
def cleanPathArg (s : String) : String :=
  let s := goTrimSpace s
  let d := s.data
  if 2 ≤ d.length ∧ ((d.headD ' ' = '\'' ∧ d.getLastD ' ' = '\'') ∨
      (d.headD ' ' = '"' ∧ d.getLastD ' ' = '"')) then
    ⟨(d.drop 1).dropLast⟩
  else s

/-- `strings.HasPrefix`. -/
def goHasPrefix (s pre : String) : Bool := pre.data.isPrefixOf s.data

/-- Character-based slicing; agrees with Go's byte slicing here since
every sliced-off prefix (`cd `, `set-location `, `-path `) is ASCII. -/
def strDrop (s : String) (n : Nat) : String := ⟨s.data.drop n⟩

/-- `executor.extractCDTarget`: detect `cd`, `Set-Location [-Path]`
and the `sl` alias, returning the cleaned target path. -/
def extractCDTarget (command : String) : Option String :=
  let cmd := goTrimSpace command
  let lower := goToLower cmd
  if goHasPrefix lower "cd " then some (cleanPathArg (strDrop cmd 3))
  else if goHasPrefix lower "set-location " then
    let rest := goTrimSpace (strDrop cmd 13)
    let lowerRest := goToLower rest
    let rest := if goHasPrefix lowerRest "-path " then goTrimSpace (strDrop rest 6) else rest
    some (cleanPathArg rest)
  else if goHasPrefix lower "sl " then some (cleanPathArg (strDrop cmd 3))
  else none

/-- The target resolution of `Executor.handleCD`: absolute targets
kept, relative ones joined to the working directory, then cleaned. -/
def resolveCD (wd target : String) : String :=
  goClean (if goIsAbs target then target else goJoin2 wd target)

/-- `Executor.handleCD`: stat the resolved directory and either move
the stored working directory (returned as the second component) with a
synthetic success result, or fail without touching it. -/
def handleCD (fs : FS) (wd target : String) : Result × String :=
  let newDir := resolveCD wd target
  match fs.stat newDir with
  | .ok true =>
    ({success := true, output := "Directory: " ++ newDir, error := "",
      newWorkDir := newDir, currentWorkDir := newDir}, newDir)
  | .ok false =>
    ({success := false, output := "", error := "'" ++ target ++ "' is not a directory",
      newWorkDir := "", currentWorkDir := wd}, wd)
  | .notExist msg =>
    ({success := false, output := "", error := "Cannot navigate to '" ++ target ++ "': " ++ msg,
      newWorkDir := "", currentWorkDir := wd}, wd)
  | .otherError msg =>
    ({success := false, output := "", error := "Cannot navigate to '" ++ target ++ "': " ++ msg,
      newWorkDir := "", currentWorkDir := wd}, wd)

/-- `strings.Split` on one separator character. -/
def splitOnChar (sep : Char) : List Char → List (List Char)
  | [] => [[]]
  | c :: rest =>
    match splitOnChar sep rest with
    | [] => if c = sep then [[], []] else [[c]]
    | h :: t => if c = sep then [] :: h :: t else (c :: h) :: t

/-- `executor.cleanTerminalOutput`: normalise CRLF, then keep only the
text after the last bare `\r` of each line. -/
def cleanTerminalOutput (s : String) : String :=
  let s1 := goReplaceAll s "\r\n" "\n"
  if ¬ s1.data.contains '\r' then s1
  else
    ⟨List.intercalate ['\n']
      ((splitOnChar '\n' s1.data).map (fun l => (splitOnChar '\r' l).getLastD l))⟩

/-- `Executor.Execute` for one call.  Returns the `Result`, the
executor's working directory after the call, and whether a subprocess
was spawned.  The timeout message uses the `NewExecutor` default of
30s. -/
def Execute (env : Env) (wd command shell : String) : Result × String × Bool :=
  match extractCDTarget command with
  | some target =>
    let r := handleCD env.fs wd target
    (r.1, r.2, false)
  | none =>
    let wd := match env.fs.stat wd with
      | .notExist _ => env.getwd
      | _ => wd
    let interp := if goToLower shell = "cmd" then "cmd" else "powershell"
    let o := env.spawn interp command wd
    if o.timedOut then
      ({success := false, output := "", error := "Command timed out after 30s",
        newWorkDir := "", currentWorkDir := wd}, wd, true)
    else
      let output := goTrimSpace o.stdout
      let errStr := goTrimSpace o.stderr
      let output := if errStr ≠ "" then
          (if output ≠ "" then output ++ "\n" ++ errStr else errStr)
        else output
      match o.err with
      | some e =>
        if e.isExit1 ∧
            (goContains (goToLower command) "select-string" ∨
             goContains (goToLower command) "grep" ∨
             goContains (goToLower command) "findstr") then
          ({success := false, output := cleanTerminalOutput output, error := "No matches found",
            newWorkDir := "", currentWorkDir := wd}, wd, true)
        else
          let errorMsg := if errStr = "" then e.text else errStr
          ({success := false, output := cleanTerminalOutput output, error := errorMsg,
            newWorkDir := "", currentWorkDir := wd}, wd, true)
      | none =>
        ({success := true, output := cleanTerminalOutput output, error := "",
          newWorkDir := "", currentWorkDir := wd}, wd, true)

/-- Claim C4: a command recognised as a directory change is handled
without spawning a subprocess, and on success both the result's
current working directory and the executor's stored working directory
equal the resolved, cleaned target. -/
theorem execute_cd_no_subprocess (env : Env) (wd command shell target : String)
    (h : extractCDTarget command = some target) :
    (Execute env wd command shell).2.2 = false ∧
    ((Execute env wd command shell).1.success = true →
      (Execute env wd command shell).1.currentWorkDir = resolveCD wd target ∧
      (Execute env wd command shell).2.1 = resolveCD wd target) := by
  unfold Execute handleCD
  rw [h]
  dsimp only
  cases hst : env.fs.stat (resolveCD wd target) with
  | ok isDir =>
    cases isDir with
    | true => exact ⟨rfl, fun _ => ⟨rfl, rfl⟩⟩
    | false => exact ⟨rfl, fun hc => absurd hc (by simp)⟩
  | notExist msg => exact ⟨rfl, fun hc => absurd hc (by simp)⟩
  | otherError msg => exact ⟨rfl, fun hc => absurd hc (by simp)⟩

theorem execute_cd_no_subprocess_witness :
    (extractCDTarget "cd proj" = some "proj") ∧
    (Execute
      ⟨⟨fun p => if p = "C:\\Users\\proj" then .ok true else .notExist "no such dir"⟩,
       "C:\\", fun _ _ _ => ⟨"", "", false, none⟩⟩
      "C:\\Users" "cd proj" "powershell").2.2 = false ∧
    ((Execute
      ⟨⟨fun p => if p = "C:\\Users\\proj" then .ok true else .notExist "no such dir"⟩,
       "C:\\", fun _ _ _ => ⟨"", "", false, none⟩⟩
      "C:\\Users" "cd proj" "powershell").1.success = true →
      (Execute
        ⟨⟨fun p => if p = "C:\\Users\\proj" then .ok true else .notExist "no such dir"⟩,
         "C:\\", fun _ _ _ => ⟨"", "", false, none⟩⟩
        "C:\\Users" "cd proj" "powershell").1.currentWorkDir = resolveCD "C:\\Users" "proj" ∧
      (Execute
        ⟨⟨fun p => if p = "C:\\Users\\proj" then .ok true else .notExist "no such dir"⟩,
         "C:\\", fun _ _ _ => ⟨"", "", false, none⟩⟩
        "C:\\Users" "cd proj" "powershell").2.1 = resolveCD "C:\\Users" "proj") :=
  ⟨by decide,
   execute_cd_no_subprocess
     ⟨⟨fun p => if p = "C:\\Users\\proj" then .ok true else .notExist "no such dir"⟩,
      "C:\\", fun _ _ _ => ⟨"", "", false, none⟩⟩
     "C:\\Users" "cd proj" "powershell" "proj" (by decide)⟩

/-- Claim C5: when the resolved target of a directory-change command
does not exist or is not a directory, the call fails and the
executor's stored working directory is untouched, with the result's
current working directory still the old one. -/
theorem execute_cd_failure_keeps_state (env : Env) (wd command shell target : String)
    (h : extractCDTarget command = some target)
    (hbad : (∃ msg, env.fs.stat (resolveCD wd target) = .notExist msg) ∨
      env.fs.stat (resolveCD wd target) = .ok false) :
    (Execute env wd command shell).1.success = false ∧
    (Execute env wd command shell).2.1 = wd ∧
    (Execute env wd command shell).1.currentWorkDir = wd := by
  unfold Execute handleCD
  rw [h]
  dsimp only
  rcases hbad with ⟨msg, hst⟩ | hst <;> rw [hst] <;> exact ⟨rfl, rfl, rfl⟩

theorem execute_cd_failure_keeps_state_witness :
    (extractCDTarget "cd missing" = some "missing") ∧
    (Execute
      ⟨⟨fun p => if p = "C:\\Users" then .ok true else .notExist "no such dir"⟩,
       "C:\\", fun _ _ _ => ⟨"", "", false, none⟩⟩
      "C:\\Users" "cd missing" "powershell").1.success = false ∧
    (Execute
      ⟨⟨fun p => if p = "C:\\Users" then .ok true else .notExist "no such dir"⟩,
       "C:\\", fun _ _ _ => ⟨"", "", false, none⟩⟩
      "C:\\Users" "cd missing" "powershell").2.1 = "C:\\Users" ∧
    (Execute
      ⟨⟨fun p => if p = "C:\\Users" then .ok true else .notExist "no such dir"⟩,
       "C:\\", fun _ _ _ => ⟨"", "", false, none⟩⟩
      "C:\\Users" "cd missing" "powershell").1.currentWorkDir = "C:\\Users" :=
  ⟨by decide,
   execute_cd_failure_keeps_state
     ⟨⟨fun p => if p = "C:\\Users" then .ok true else .notExist "no such dir"⟩,
      "C:\\", fun _ _ _ => ⟨"", "", false, none⟩⟩
     "C:\\Users" "cd missing" "powershell" "missing" (by decide)
     (Or.inl ⟨"no such dir", by decide⟩)⟩

/-- Claim C9: a non-cd command whose subprocess exits with code 1 and
whose text contains a search-tool signature yields `success = false`
with error exactly `"No matches found"`, not a generic message. -/
theorem execute_search_exit1 (env : Env) (wd command shell : String)
    (h : extractCDTarget command = none)
    (hsig : goContains (goToLower command) "select-string" ∨
      goContains (goToLower command) "grep" ∨
      goContains (goToLower command) "findstr")
    (ho : (env.spawn (if goToLower shell = "cmd" then "cmd" else "powershell") command
        (match env.fs.stat wd with | .notExist _ => env.getwd | _ => wd)).timedOut = false ∧
      (env.spawn (if goToLower shell = "cmd" then "cmd" else "powershell") command
        (match env.fs.stat wd with | .notExist _ => env.getwd | _ => wd)).err
        = some (.exitError 1)) :
    (Execute env wd command shell).1.success = false ∧
    (Execute env wd command shell).1.error = "No matches found" := by
  unfold Execute
  rw [h]
  dsimp only
  obtain ⟨hto, herr⟩ := ho
  cases hst : env.fs.stat wd with
  | ok isDir =>
    rw [hst] at hto herr
    simp only [hto, Bool.false_eq_true, if_false, herr]
    rw [if_pos ⟨rfl, hsig⟩]
    exact ⟨rfl, rfl⟩
  | notExist msg =>
    rw [hst] at hto herr
    simp only [hto, Bool.false_eq_true, if_false, herr]
    rw [if_pos ⟨rfl, hsig⟩]
    exact ⟨rfl, rfl⟩
  | otherError msg =>
    rw [hst] at hto herr
    simp only [hto, Bool.false_eq_true, if_false, herr]
    rw [if_pos ⟨rfl, hsig⟩]
    exact ⟨rfl, rfl⟩

theorem execute_search_exit1_witness :
    (Execute
      ⟨⟨fun _ => .ok true⟩, "C:\\",
       fun _ _ _ => ⟨"", "", false, some (.exitError 1)⟩⟩
      "C:\\Users" "findstr TODO notes.txt" "powershell").1.success = false ∧
    (Execute
      ⟨⟨fun _ => .ok true⟩, "C:\\",
       fun _ _ _ => ⟨"", "", false, some (.exitError 1)⟩⟩
      "C:\\Users" "findstr TODO notes.txt" "powershell").1.error = "No matches found" :=
  execute_search_exit1
    ⟨⟨fun _ => .ok true⟩, "C:\\",
     fun _ _ _ => ⟨"", "", false, some (.exitError 1)⟩⟩
    "C:\\Users" "findstr TODO notes.txt" "powershell"
    (by decide) (by decide) ⟨by decide, by decide⟩

/-! ### ConversationMemory (package memory)

`time.Now()` is external input: each call carries a `Timestamp` whose
fields are the two formats the code renders (`2006-01-02` for the note
filename and header, `15:04` for note lines).  The dated note files of
the data directory are modelled as an association list from file name
to accumulated content; the Go append is best-effort (an open error is
swallowed), modelled as the successful case. -/

/-- The two renderings of one `time.Time` used by the memory code. -/
structure Timestamp where
  date : String
  hm : String
deriving DecidableEq, Repr

/-- `memory.Exchange`. -/
structure Exchange where
  timestamp : Timestamp
  userInput : String
  command : String
  result : String
  response : String
deriving DecidableEq, Repr

/-- `memory.Memory` plus the note files it owns on disk. -/
structure Memory where
  workingDir : String
  lastAction : String
  lastCreated : String
  exchanges : List Exchange
  maxExchanges : Nat
  compactAfter : Nat
  noteFiles : List (String × String)
deriving DecidableEq, Repr

/-- `memory.NewMemory` (the data-directory path only routes file
names and is omitted; `cwd` is the `os.Getwd` result). -/
def NewMemory (cwd : String) : Memory :=
  ⟨cwd, "", "", [], 5, 20, []⟩

/-- `strings.Trim` with a cutset, both ends. -/
def goTrim (s : String) (cutset : String) : String :=
  let cut := cutset.data
  ⟨((s.data.dropWhile (fun c => cut.contains c)).reverse.dropWhile
      (fun c => cut.contains c)).reverse⟩

/-- `strings.IndexAny` restricted to a character set. -/
def indexAny (set : List Char) : List Char → Option Nat
  | [] => none
  | c :: rest =>
    if set.contains c then some 0 else (indexAny set rest).map (· + 1)

/-- `strings.Fields`: split around runs of white space. -/
def fieldsAux : List Char → List Char → List String
  | [], acc => if acc = [] then [] else [⟨acc.reverse⟩]
  | c :: rest, acc =>
    if goIsSpace c then
      if acc = [] then fieldsAux rest []
      else (⟨acc.reverse⟩ : String) :: fieldsAux rest []
    else fieldsAux rest (c :: acc)

/-- `strings.Fields` on strings. -/
def goFields (s : String) : List String := fieldsAux s.data []

/-- `memory.ExtractNameFromCommand`: the `-Name` argument, or the last
token of a `mkdir`. -/
def ExtractNameFromCommand (cmd : String) : String :=
  let lower := goToLower cmd
  match goIndex lower "-name" with
  | some idx =>
    let rest := goTrimSpace (strDrop cmd (idx + 5))
    let rest : String := ⟨rest.data.dropWhile (fun c => c = ' ')⟩
    let name := goTrim rest "'\""
    match indexAny [' ', '\t'] name.data with
    | some sp => ⟨name.data.take sp⟩
    | none => name
  | none =>
    if goContains lower "mkdir" then
      let parts := goFields cmd
      if 2 ≤ parts.length then goTrim (parts.getLastD "") "'\"" else ""
    else ""

/-- `memory.ExtractPathFromCommand`: the last token, dequoted. -/
def ExtractPathFromCommand (cmd : String) : String :=
  let parts := goFields cmd
  if 2 ≤ parts.length then goTrim (parts.getLastD "") "'\"" else ""

/-- The context-hint update inside `Memory.RecordExchange`. -/
def updateHints (m : Memory) (command : String) : Memory :=
  if command ≠ "" then
    let lower := goToLower command
    if goContains lower "new-item" || goContains lower "mkdir" then
      { m with lastCreated := ExtractNameFromCommand command }
    else if goContains lower "explorer" then
      { m with lastCreated := ExtractPathFromCommand command }
    else m
  else m

/-- The markdown block `Memory.compact` writes for the trimmed
exchanges (header plus one entry per exchange).  The header separator
reproduces the source literal byte-for-byte: the Go file contains the
mojibake three-character sequence U+00E2 U+20AC U+201D (an em dash
whose UTF-8 bytes were re-decoded as Windows-1252), not an em dash. -/
def buildNote (today : String) (old : List Exchange) : String :=
  "# Shell-E Session â€” " ++ today ++ "\n\n" ++
  String.join (old.map (fun ex =>
    "- [" ++ ex.timestamp.hm ++ "] User: " ++ ex.userInput ++ "\n" ++
    (if ex.command ≠ "" then "  Command: `" ++ ex.command ++ "`\n" else "") ++
    "  Response: " ++ ex.response ++ "\n\n"))

/-- `os.OpenFile(..., O_APPEND|O_CREATE|O_WRONLY)` plus `WriteString`
on the association list of note files. -/
def appendFile : List (String × String) → String → String → List (String × String)
  | [], name, content => [(name, content)]
  | (n, c) :: rest, name, content =>
    if n = name then (n, c ++ content) :: rest
    else (n, c) :: appendFile rest name content

/-- `Memory.compact`: keep the last `MaxExchanges`, append the rest to
today's note.  The append is best-effort: `os.OpenFile` may fail and
its error is silently swallowed while the trim stands — `openOk` is
the outcome of that open (the subsequent `WriteString` error is
likewise ignored by the source; a short write is not modelled). -/
def compact (today : String) (openOk : Bool) (m : Memory) : Memory :=
  if m.exchanges.length ≤ m.maxExchanges then m
  else
    let old := m.exchanges.take (m.exchanges.length - m.maxExchanges)
    let kept := m.exchanges.drop (m.exchanges.length - m.maxExchanges)
    { m with exchanges := kept,
             noteFiles :=
               if openOk then appendFile m.noteFiles (today ++ ".md") (buildNote today old)
               else m.noteFiles }

/-- `Memory.RecordExchange`: append the exchange, update the hints,
compact when the count exceeds the threshold.  `openOk` is the
note-file open outcome consumed by `compact` when it fires. -/
def RecordExchange (m : Memory) (now : Timestamp) (openOk : Bool)
    (userInput command result response : String) : Memory :=
  let ex : Exchange := ⟨now, userInput, command, result, response⟩
  let m1 := { m with exchanges := m.exchanges ++ [ex], lastAction := response }
  let m2 := updateHints m1 command
  if m2.compactAfter < m2.exchanges.length then compact now.date openOk m2 else m2

/-- `Memory.Clear`. -/
def Clear (m : Memory) : Memory :=
  { m with exchanges := [], lastAction := "", lastCreated := "" }

/-- Claim C10: `Clear` empties the exchanges and both hints but leaves
the working directory exactly as it was. -/
theorem clear_frame (m : Memory) :
    (Clear m).exchanges = [] ∧ (Clear m).lastAction = "" ∧
    (Clear m).lastCreated = "" ∧ (Clear m).workingDir = m.workingDir :=
  ⟨rfl, rfl, rfl, rfl⟩

/-- `updateHints` only touches `lastCreated`. -/
theorem updateHints_frame (m : Memory) (c : String) :
    (updateHints m c).exchanges = m.exchanges ∧
    (updateHints m c).maxExchanges = m.maxExchanges ∧
    (updateHints m c).compactAfter = m.compactAfter ∧
    (updateHints m c).noteFiles = m.noteFiles := by
  unfold updateHints
  dsimp only
  split_ifs <;> exact ⟨rfl, rfl, rfl, rfl⟩

/-- One `RecordExchange` call keeps the exchange count at or below the
compaction threshold and preserves the two bounds, whether or not the
note-file open succeeds. -/
theorem record_exchange_step (m : Memory) (now : Timestamp) (openOk : Bool)
    (u c r res : String)
    (hmc : m.maxExchanges ≤ m.compactAfter) :
    (RecordExchange m now openOk u c r res).exchanges.length ≤ m.compactAfter ∧
    (RecordExchange m now openOk u c r res).maxExchanges = m.maxExchanges ∧
    (RecordExchange m now openOk u c r res).compactAfter = m.compactAfter := by
  unfold RecordExchange
  dsimp only
  obtain ⟨he, hm, hc, -⟩ := updateHints_frame
    { m with exchanges := m.exchanges ++ [⟨now, u, c, r, res⟩], lastAction := res } c
  split_ifs with hcond
  · unfold compact
    split_ifs with hinner hok
    · refine ⟨le_trans hinner ?_, hm, hc⟩
      rw [hm]
      exact hmc
    · refine ⟨?_, hm, hc⟩
      simp only [he, hm, List.length_drop, List.length_append, List.length_cons,
        List.length_nil]
      omega
    · refine ⟨?_, hm, hc⟩
      simp only [he, hm, List.length_drop, List.length_append, List.length_cons,
        List.length_nil]
      omega
  · refine ⟨?_, hm, hc⟩
    simp only [he, hc, List.length_append, List.length_cons, List.length_nil] at hcond ⊢
    omega

/-- Appending to a note file adds the content under that file's name. -/
theorem lookup_appendFile (files : List (String × String)) (name content : String) :
    (appendFile files name content).lookup name
      = some ((files.lookup name).getD "" ++ content) := by
  induction files with
  | nil =>
    simp [appendFile, List.lookup]
  | cons p rest ih =>
    obtain ⟨n, c⟩ := p
    unfold appendFile
    by_cases hn : n = name
    · subst hn
      simp [List.lookup]
    · simp only [if_neg hn, List.lookup]
      have hbeq : (name == n) = false := by
        simp [beq_iff_eq]
        exact fun h => hn h.symm
      rw [hbeq]
      simp only [ih]

/-- Counterexample to claim C6 as stated: with the `NewMemory` bounds
(window 5, threshold 20), after 22 recordings — more than the
threshold — the in-memory count is 6, which exceeds the window size:
compaction only fires when the count exceeds the threshold, so between
compactions the count grows past `MaxExchanges` up to `CompactAfter`. -/
theorem compaction_counterexample :
    ((List.range 22).foldl
      (fun acc _ => RecordExchange acc ⟨"2025-01-01", "10:00"⟩ true "msg" "" "out" "resp")
      (NewMemory "C:\\")).exchanges.length = 6 ∧
    (NewMemory "C:\\").maxExchanges < 6 ∧
    (NewMemory "C:\\").compactAfter < 22 := by
  decide

/-- Claim C6 (amended): (1) the in-memory exchange count never exceeds
the compaction threshold (`CompactAfter`, not the window size); (2) a
call that pushes the count past the threshold compacts it down to
exactly `MaxExchanges` and, when the best-effort note-file open
succeeds (its error is otherwise silently swallowed while the trim
stands), appends the removed prefix, formatted, to the dated note
file. -/
theorem record_exchange_compaction_amended :
    (∀ (m : Memory) (inputs : List (Timestamp × Bool × String × String × String × String)),
      m.maxExchanges ≤ m.compactAfter →
      m.exchanges.length ≤ m.compactAfter →
      (inputs.foldl
        (fun acc i => RecordExchange acc i.1 i.2.1 i.2.2.1 i.2.2.2.1 i.2.2.2.2.1 i.2.2.2.2.2)
        m).exchanges.length ≤ m.compactAfter) ∧
    (∀ (m : Memory) (now : Timestamp) (openOk : Bool) (u c r res : String),
      m.maxExchanges < m.exchanges.length + 1 →
      m.compactAfter < m.exchanges.length + 1 →
      (RecordExchange m now openOk u c r res).exchanges.length = m.maxExchanges ∧
      (openOk = true →
        (RecordExchange m now openOk u c r res).noteFiles.lookup (now.date ++ ".md")
          = some ((m.noteFiles.lookup (now.date ++ ".md")).getD "" ++
              buildNote now.date
                ((m.exchanges ++ [Exchange.mk now u c r res]).take
                  (m.exchanges.length + 1 - m.maxExchanges))))) := by
  constructor
  · intro m inputs
    induction inputs generalizing m with
    | nil =>
      intro _ hlen
      simpa using hlen
    | cons i rest ih =>
      intro hmc hlen
      simp only [List.foldl_cons]
      have hstep := record_exchange_step m i.1 i.2.1 i.2.2.1 i.2.2.2.1 i.2.2.2.2.1
        i.2.2.2.2.2 hmc
      have hrec := ih (RecordExchange m i.1 i.2.1 i.2.2.1 i.2.2.2.1 i.2.2.2.2.1 i.2.2.2.2.2)
        (by rw [hstep.2.1, hstep.2.2]; exact hmc)
        (by rw [hstep.2.2]; exact hstep.1)
      rw [hstep.2.2] at hrec
      exact hrec
  · intro m now openOk u c r res hmax hca
    unfold RecordExchange
    dsimp only
    obtain ⟨he, hm, hc, hn⟩ := updateHints_frame
      { m with exchanges := m.exchanges ++ [⟨now, u, c, r, res⟩], lastAction := res } c
    have hcond : (updateHints
        { m with exchanges := m.exchanges ++ [⟨now, u, c, r, res⟩], lastAction := res }
        c).compactAfter
        < (updateHints
            { m with exchanges := m.exchanges ++ [⟨now, u, c, r, res⟩], lastAction := res }
            c).exchanges.length := by
      rw [he, hc]
      simp only [List.length_append, List.length_cons, List.length_nil]
      omega
    rw [if_pos hcond]
    unfold compact
    have hin : ¬ ((updateHints
        { m with exchanges := m.exchanges ++ [⟨now, u, c, r, res⟩], lastAction := res }
        c).exchanges.length
        ≤ (updateHints
            { m with exchanges := m.exchanges ++ [⟨now, u, c, r, res⟩], lastAction := res }
            c).maxExchanges) := by
      rw [he, hm]
      simp only [List.length_append, List.length_cons, List.length_nil]
      omega
    rw [if_neg hin]
    constructor
    · simp only [he, hm, List.length_drop, List.length_append, List.length_cons,
        List.length_nil]
      omega
    · intro hok
      subst hok
      simp only [hn, he, hm, eq_self_iff_true, if_true, List.length_append,
        List.length_cons, List.length_nil]
      rw [lookup_appendFile]

theorem record_exchange_compaction_amended_witness :
    ((List.replicate 3
        ((⟨⟨"2025-01-02", "11:00"⟩, true, "u", "", "r", "resp"⟩ :
          Timestamp × Bool × String × String × String × String))).foldl
      (fun acc i => RecordExchange acc i.1 i.2.1 i.2.2.1 i.2.2.2.1 i.2.2.2.2.1 i.2.2.2.2.2)
      (NewMemory "C:\\")).exchanges.length ≤ (NewMemory "C:\\").compactAfter ∧
    ((RecordExchange
        (Memory.mk "C:\\" "" ""
          (List.replicate 20 (Exchange.mk ⟨"2025-01-03", "09:00"⟩ "u" "" "r" "x")) 5 20 [])
        ⟨"2025-01-03", "12:00"⟩ true "u2" "" "r2" "resp2").exchanges.length
      = (Memory.mk "C:\\" "" ""
          (List.replicate 20 (Exchange.mk ⟨"2025-01-03", "09:00"⟩ "u" "" "r" "x")) 5 20
          []).maxExchanges ∧
     (true = true →
      (RecordExchange
        (Memory.mk "C:\\" "" ""
          (List.replicate 20 (Exchange.mk ⟨"2025-01-03", "09:00"⟩ "u" "" "r" "x")) 5 20 [])
        ⟨"2025-01-03", "12:00"⟩ true "u2" "" "r2" "resp2").noteFiles.lookup ("2025-01-03" ++ ".md")
      = some ((([] : List (String × String)).lookup ("2025-01-03" ++ ".md")).getD "" ++
          buildNote "2025-01-03"
            ((List.replicate 20 (Exchange.mk ⟨"2025-01-03", "09:00"⟩ "u" "" "r" "x") ++
              [Exchange.mk ⟨"2025-01-03", "12:00"⟩ "u2" "" "r2" "resp2"]).take
              ((List.replicate 20 (Exchange.mk ⟨"2025-01-03", "09:00"⟩ "u" "" "r" "x")).length
                + 1 - 5))))) :=
  ⟨record_exchange_compaction_amended.1 (NewMemory "C:\\")
      (List.replicate 3 (⟨⟨"2025-01-02", "11:00"⟩, true, "u", "", "r", "resp"⟩ :
        Timestamp × Bool × String × String × String × String))
      (by decide) (by decide),
   record_exchange_compaction_amended.2
      (Memory.mk "C:\\" "" ""
        (List.replicate 20 (Exchange.mk ⟨"2025-01-03", "09:00"⟩ "u" "" "r" "x")) 5 20 [])
      ⟨"2025-01-03", "12:00"⟩ true "u2" "" "r2" "resp2" (by decide) (by decide)⟩

end ShellE
